import Mathlib

/-!
Shallow embedding of `idix_engine.py` (the scoring-and-classification engine
of the I-TYPE quiz) and verification of its specification.

Modelling conventions:
* Python dicts are insertion-ordered; they are modelled as association lists
  (`List (String × α)`) with first-match lookup (`alookup`), in-place update of
  an existing key, and append-at-end insertion of a new key.
* Python numbers (ints and floats produced by `/`) are modelled as `ℚ`;
  questionnaire raw values are Python ints, modelled as `ℤ`.
* `data.get("signature")` either yields a dict or something that fails the
  `isinstance(sig, dict)` test (including absence); the two failing cases are
  collapsed into `Option.none`, the passing case is `Option.some`.
* `list.sort(key=...)` is Python's stable ascending sort; it is realised here
  as a stable insertion sort (`sortDist`), which produces the same list:
  ascending by key with ties kept in original relative order.
-/

/-- First-match lookup in an association list: the model of `d[k]` / `k in d` /
`d.get(k)` on a Python dict. -/
def alookup {α : Type} : List (String × α) → String → Option α
  | [], _ => none
  | e :: t, key => if e.1 = key then some e.2 else alookup t key

/-- Source `normalize_dimension(total, count)`: neutral fallback 50 when
`count == 0`, otherwise `(total / count - 1) / 4 * 100`. -/
def normalize_dimension (total : ℤ) (count : ℕ) : ℚ :=
  if count = 0 then 50
  else ((total : ℚ) / (count : ℚ) - 1) / 4 * 100

/-- One questionnaire response record `{value, dimension, reverse}`. -/
structure Answer where
  value : ℤ
  dimension : String
  reverse : Bool
deriving DecidableEq, Repr

/-- Source loop body of `calculate_question_scores`: the reverse-coding step
`if data.get("reverse", False): val = 6 - val`. -/
def adjustedValue (a : Answer) : ℤ :=
  if a.reverse then 6 - a.value else a.value

/-- Source `totals[dim] += val; counts[dim] += 1` with creation of the missing
entry. The two dicts `totals` and `counts` always hold exactly the same keys in
the same insertion order, so they are modelled as one dict of pairs. -/
def bump : List (String × ℤ × ℕ) → String → ℤ → List (String × ℤ × ℕ)
  | [], dim, val => [(dim, val, 1)]
  | e :: rest, dim, val =>
    if e.1 = dim then (e.1, e.2.1 + val, e.2.2 + 1) :: rest
    else e :: bump rest dim val

/-- One iteration of the accumulation loop of `calculate_question_scores`. -/
def accumStep (acc : List (String × ℤ × ℕ)) (qa : String × Answer) :
    List (String × ℤ × ℕ) :=
  bump acc qa.2.dimension (adjustedValue qa.2)

/-- Source `calculate_question_scores(answers)`: accumulate per-dimension
totals and counts over the answer dict, then normalise each dimension. -/
def calculate_question_scores (answers : List (String × Answer)) :
    List (String × ℚ) :=
  let tc := answers.foldl accumStep []
  tc.map (fun e => (e.1, normalize_dimension e.2.1 e.2.2))

/-- One scenario weight record `{dimension, weight}`. -/
structure ScenarioWeight where
  dimension : String
  weight : ℚ
deriving DecidableEq, Repr

/-- Source `dimension_adjustments[dim] += influence` with creation of the
missing entry. -/
def dadd : List (String × ℚ) → String → ℚ → List (String × ℚ)
  | [], dim, v => [(dim, v)]
  | e :: rest, dim, v =>
    if e.1 = dim then (e.1, e.2 + v) :: rest
    else e :: dadd rest dim v

/-- One iteration of the loop of `calculate_scenario_scores` on a zipped
(response, weight) pair: skip a `None` response, otherwise accumulate
`influence = (resp - 3) * weight` for the pair's dimension. -/
def scenStep (adj : List (String × ℚ)) (p : Option ℚ × ScenarioWeight) :
    List (String × ℚ) :=
  match p.1 with
  | none => adj
  | some resp => dadd adj p.2.dimension ((resp - 3) * p.2.weight)

/-- Source `calculate_scenario_scores(scenario_responses, scenario_weights)`:
iterate `zip(scenario_responses, scenario_weights)`, skip `None` responses,
and accumulate `influence = (resp - 3) * weight` per dimension. -/
def calculate_scenario_scores (scenario_responses : List (Option ℚ))
    (scenario_weights : List ScenarioWeight) : List (String × ℚ) :=
  (scenario_responses.zip scenario_weights).foldl scenStep []

/-- Source `merge_scores(base_scores, scenario_adjustments)`: for each base
entry, add `scenario_adjustments.get(dim, 0)` and clamp with
`max(0, min(100, final_val))`. -/
def merge_scores (base_scores : List (String × ℚ))
    (scenario_adjustments : List (String × ℚ)) : List (String × ℚ) :=
  base_scores.map
    (fun e => (e.1, max 0 (min 100 (e.2 + (alookup scenario_adjustments e.1).getD 0))))

/-- One archetype record: the `signature` sub-dict (or `none` when missing or
not a dict, i.e. failing `isinstance(sig, dict)`), plus the descriptive
payload fields the engine passes through. -/
structure ArchetypeData where
  signature : Option (List (String × ℚ))
  description : String
  strengths : List String
  risks : List String
deriving DecidableEq, Repr

/-- A value returned in the second slot of a `determine_archetypes` result
pair: either a whole archetype record, the literal fallback payload dict of
the `Unknown` sentinel, or the empty dict `{}`. -/
inductive ResultData where
  | record (d : ArchetypeData) : ResultData
  | fallback (description : String) (strengths risks : List String) : ResultData
  | emptyDict : ResultData
deriving DecidableEq, Repr

/-- The description string of the `Unknown` sentinel in the source. -/
def sentinelDescription : String :=
  "Your profile does not align with any archetype yet."

/-- Source `(scores[d] - sig[d]) ** 2` summed over `for d in scores`.
The `.getD 0` default is never exercised by the engine: the sum is evaluated
only after the guard checking that `sig` holds every dimension of `scores`. -/
def distSq (scores sig : List (String × ℚ)) : ℚ :=
  scores.foldl (fun s e => s + (e.2 - (alookup sig e.1).getD 0) ^ 2) 0

/-- One iteration of the loop of `determine_archetypes` building `distances`:
skip a record whose signature is not a dict, skip a signature missing any
dimension of `scores`, otherwise append `(name, dist)`. -/
def validStep (scores : List (String × ℚ)) (distances : List (String × ℚ))
    (p : String × ArchetypeData) : List (String × ℚ) :=
  match p.2.signature with
  | none => distances
  | some sig =>
    if scores.any (fun q => (alookup sig q.1).isNone) then distances
    else distances ++ [(p.1, distSq scores sig)]

/-- Source `distances` list built by the loop of `determine_archetypes`. -/
def validEntries (scores : List (String × ℚ))
    (archetypes : List (String × ArchetypeData)) : List (String × ℚ) :=
  archetypes.foldl (validStep scores) []

/-- Stable insertion of an entry into a list ascending by distance: placed
before the first entry of greater-or-equal distance. -/
def insertDist (x : String × ℚ) : List (String × ℚ) → List (String × ℚ)
  | [] => [x]
  | y :: ys => if x.2 ≤ y.2 then x :: y :: ys else y :: insertDist x ys

/-- Model of `distances.sort(key=lambda x: x[1])`: Python's sort is stable and
ascending by key, which this stable insertion sort reproduces exactly. -/
def sortDist : List (String × ℚ) → List (String × ℚ)
  | [] => []
  | x :: xs => insertDist x (sortDist xs)

/-- Source `archetypes[name]` for a name taken from a distances entry; such a
name always came from `archetypes`, so the `emptyDict` default is never
exercised. -/
def archetypeLookup (archetypes : List (String × ArchetypeData))
    (name : String) : ResultData :=
  match alookup archetypes name with
  | some d => ResultData.record d
  | none => ResultData.emptyDict

/-- Source `determine_archetypes(scores, archetypes)`. The Python code tests
`len(distances) == 0` before sorting; since sorting the empty list yields the
empty list, matching on the sorted list is the same test. -/
def determine_archetypes (scores : List (String × ℚ))
    (archetypes : List (String × ArchetypeData)) :
    (String × ResultData) × (String × ResultData) :=
  match sortDist (validEntries scores archetypes) with
  | [] =>
    (("Unknown", ResultData.fallback sentinelDescription [] []),
     ("None", ResultData.emptyDict))
  | p :: rest =>
    match rest with
    | [] => ((p.1, archetypeLookup archetypes p.1), ("None", ResultData.emptyDict))
    | s :: _ =>
      ((p.1, archetypeLookup archetypes p.1), (s.1, archetypeLookup archetypes s.1))

/-- Source `compute_idix(answers, scenario_responses, scenario_weights,
archetypes)`. Python truthiness `if scenario_responses and scenario_weights`
(resp. `if archetypes`) holds exactly when the argument is neither `None` nor
empty, modelled by matching on `some` of a nonempty list. -/
def compute_idix (answers : List (String × Answer))
    (scenario_responses : Option (List (Option ℚ)))
    (scenario_weights : Option (List ScenarioWeight))
    (archetypes : Option (List (String × ArchetypeData))) :
    List (String × ℚ) × (String × ResultData) × (String × ResultData) :=
  let q_scores := calculate_question_scores answers
  let scenario_adj :=
    match scenario_responses, scenario_weights with
    | some (r :: rs), some (w :: ws) => calculate_scenario_scores (r :: rs) (w :: ws)
    | _, _ => []
  let final_scores := merge_scores q_scores scenario_adj
  match archetypes with
  | some (a :: rest) =>
    let result := determine_archetypes final_scores (a :: rest)
    (final_scores, result.1, result.2)
  | _ =>
    (final_scores, ("Unknown", ResultData.emptyDict), ("None", ResultData.emptyDict))

/-!  Spec-side definitions, written from the specification's words, used to
compare the engine's behaviour against the stated contracts.  -/

/-- Spec-side: the raw values contributed to a dimension by an answer map,
with reverse-coded values already replaced by `6 - v` (the spec's
"after replacing each reverse-coded value v by 6 - v before averaging"). -/
def dimContributions (answers : List (String × Answer)) (dim : String) : List ℤ :=
  (answers.filter (fun qa => qa.2.dimension == dim)).map (fun qa => adjustedValue qa.2)

/-- Spec-side: the total scenario delta a list of index-aligned
(response, weight) pairs contributes to a dimension: the sum of
`(resp - 3) * weight` over the answered pairs naming that dimension. -/
def scenarioDelta (pairs : List (Option ℚ × ScenarioWeight)) (dim : String) : ℚ :=
  (pairs.map (fun p =>
    match p.1 with
    | none => 0
    | some r => if p.2.dimension = dim then (r - 3) * p.2.weight else 0)).sum

/-- Spec-side: the entry of minimum distance, ties broken in favour of the
first-encountered entry (the spec's "minimum distance ... ties broken by
first-encountered in iteration order"). -/
def specFirstMin : List (String × ℚ) → Option (String × ℚ)
  | [] => none
  | x :: xs =>
    match specFirstMin xs with
    | none => some x
    | some m => if x.2 ≤ m.2 then some x else some m

/-- Spec-side: the name of the first archetype, in insertion order, whose
signature is a mapping. -/
def firstMappingArchetype (archetypes : List (String × ArchetypeData)) :
    Option String :=
  (archetypes.find? (fun p => p.2.signature.isSome)).map Prod.fst

/-!  Lemmas about the dictionary model.  -/

theorem alookup_append_of_isSome {α : Type} {l₁ : List (String × α)}
    (l₂ : List (String × α)) {k : String} (h : (alookup l₁ k).isSome) :
    alookup (l₁ ++ l₂) k = alookup l₁ k := by
  induction l₁ with
  | nil => simp [alookup] at h
  | cons e t ih =>
    by_cases hk : e.1 = k
    · simp [alookup, hk]
    · simp only [alookup, if_neg hk] at h ⊢
      exact ih h

theorem alookup_map {α β : Type} (g : String × α → β) (l : List (String × α))
    {k : String} {v : α} (h : alookup l k = some v) :
    alookup (l.map (fun e => (e.1, g e))) k = some (g (k, v)) := by
  induction l with
  | nil => simp [alookup] at h
  | cons e t ih =>
    by_cases hk : e.1 = k
    · simp only [alookup, if_pos hk] at h
      obtain rfl := Option.some_injective _ h
      subst hk
      simp [alookup]
    · simp only [alookup, if_neg hk] at h
      simpa [alookup, hk] using ih h

theorem alookup_map_none {α β : Type} (g : String × α → β)
    (l : List (String × α)) {k : String} (h : alookup l k = none) :
    alookup (l.map (fun e => (e.1, g e))) k = none := by
  induction l with
  | nil => simp [alookup]
  | cons e t ih =>
    by_cases hk : e.1 = k
    · simp [alookup, hk] at h
    · simp only [alookup, if_neg hk] at h
      simpa [alookup, hk] using ih h

theorem alookup_mem {α : Type} {l : List (String × α)} {k : String} {v : α}
    (h : alookup l k = some v) : (k, v) ∈ l := by
  induction l with
  | nil => simp [alookup] at h
  | cons e t ih =>
    by_cases hk : e.1 = k
    · simp only [alookup, if_pos hk] at h
      obtain rfl := Option.some_injective _ h
      subst hk
      simp
    · simp only [alookup, if_neg hk] at h
      exact List.mem_cons_of_mem _ (ih h)

theorem bump_lookup_self_some {acc : List (String × ℤ × ℕ)} {dim : String}
    {tc : ℤ × ℕ} (val : ℤ) (h : alookup acc dim = some tc) :
    alookup (bump acc dim val) dim = some (tc.1 + val, tc.2 + 1) := by
  induction acc with
  | nil => simp [alookup] at h
  | cons e t ih =>
    by_cases hk : e.1 = dim
    · simp only [alookup, if_pos hk] at h
      obtain rfl := Option.some_injective _ h
      simp [bump, alookup, hk]
    · simp only [alookup, if_neg hk] at h
      simpa [bump, alookup, hk] using ih h

theorem bump_lookup_self_none {acc : List (String × ℤ × ℕ)} {dim : String}
    (val : ℤ) (h : alookup acc dim = none) :
    alookup (bump acc dim val) dim = some (val, 1) := by
  induction acc with
  | nil => simp [bump, alookup]
  | cons e t ih =>
    by_cases hk : e.1 = dim
    · simp [alookup, hk] at h
    · simp only [alookup, if_neg hk] at h
      simpa [bump, alookup, hk] using ih h

theorem bump_lookup_other {acc : List (String × ℤ × ℕ)} {dim k : String}
    (val : ℤ) (h : dim ≠ k) :
    alookup (bump acc dim val) k = alookup acc k := by
  induction acc with
  | nil => simp [bump, alookup, h]
  | cons e t ih =>
    by_cases hk : e.1 = dim
    · simp [bump, alookup, hk, h]
    · by_cases hk2 : e.1 = k
      · simp [bump, alookup, hk, hk2, Ne.symm h]
      · simpa [bump, alookup, hk, hk2] using ih

theorem dadd_lookup_getD {acc : List (String × ℚ)} {dim : String} (v : ℚ) :
    (alookup (dadd acc dim v) dim).getD 0 = (alookup acc dim).getD 0 + v := by
  induction acc with
  | nil => simp [dadd, alookup]
  | cons e t ih =>
    by_cases hk : e.1 = dim
    · simp [dadd, alookup, hk]
    · simpa [dadd, alookup, hk] using ih

theorem dadd_lookup_other {acc : List (String × ℚ)} {dim k : String}
    (v : ℚ) (h : dim ≠ k) :
    alookup (dadd acc dim v) k = alookup acc k := by
  induction acc with
  | nil => simp [dadd, alookup, h]
  | cons e t ih =>
    by_cases hk : e.1 = dim
    · simp [dadd, alookup, hk, h]
    · by_cases hk2 : e.1 = k
      · simp [dadd, alookup, hk, hk2, Ne.symm h]
      · simpa [dadd, alookup, hk, hk2] using ih

/-!  The accumulation loop of `calculate_question_scores`.  -/

theorem accum_some (answers : List (String × Answer)) :
    ∀ (acc : List (String × ℤ × ℕ)) (dim : String) (tc : ℤ × ℕ),
      alookup acc dim = some tc →
      alookup (answers.foldl accumStep acc) dim
        = some (tc.1 + (dimContributions answers dim).sum,
                tc.2 + (dimContributions answers dim).length) := by
  induction answers with
  | nil =>
    intro acc dim tc h
    simpa [dimContributions] using h
  | cons qa rest ih =>
    intro acc dim tc h
    by_cases hd : qa.2.dimension = dim
    · have h2 : alookup (accumStep acc qa) dim
          = some (tc.1 + adjustedValue qa.2, tc.2 + 1) := by
        rw [accumStep, hd]
        exact bump_lookup_self_some _ h
      rw [List.foldl_cons, ih _ _ _ h2]
      simp only [dimContributions, List.filter_cons, hd, beq_self_eq_true,
        if_pos, List.map_cons, List.sum_cons, List.length_cons,
        Option.some.injEq, Prod.mk.injEq]
      constructor
      · ring
      · omega
    · have h2 : alookup (accumStep acc qa) dim = some tc := by
        rw [accumStep]
        exact (bump_lookup_other _ hd).trans h
      rw [List.foldl_cons, ih _ _ _ h2]
      have hb : (qa.2.dimension == dim) = false := by
        simpa using hd
      simp [dimContributions, List.filter_cons, hb]

theorem accum_none (answers : List (String × Answer)) :
    ∀ (acc : List (String × ℤ × ℕ)) (dim : String),
      alookup acc dim = none →
      alookup (answers.foldl accumStep acc) dim
        = if dimContributions answers dim = [] then none
          else some ((dimContributions answers dim).sum,
                     (dimContributions answers dim).length) := by
  induction answers with
  | nil =>
    intro acc dim h
    simpa [dimContributions] using h
  | cons qa rest ih =>
    intro acc dim h
    by_cases hd : qa.2.dimension = dim
    · have h2 : alookup (accumStep acc qa) dim = some (adjustedValue qa.2, 1) := by
        rw [accumStep, hd]
        exact bump_lookup_self_none _ h
      rw [List.foldl_cons, accum_some _ _ _ _ h2]
      simp only [dimContributions, List.filter_cons, hd, beq_self_eq_true,
        if_pos, List.map_cons, List.sum_cons, List.length_cons]
      simp [Nat.add_comm]
    · have h2 : alookup (accumStep acc qa) dim = none := by
        rw [accumStep]
        exact (bump_lookup_other _ hd).trans h
      rw [List.foldl_cons, ih _ _ h2]
      have hb : (qa.2.dimension == dim) = false := by
        simpa using hd
      have hf : dimContributions (qa :: rest) dim = dimContributions rest dim := by
        simp [dimContributions, List.filter_cons, hb]
      rw [hf]

/-- Claim C3: for an answer map whose values lie in 1..5, every dimension with
at least one contributing answer is scored `(mean - 1) / 4 * 100`, where the
mean averages the raw values after replacing each reverse-coded value `v` by
`6 - v`. -/
theorem calculate_question_scores_mean (answers : List (String × Answer))
    (hrange : ∀ qa ∈ answers, 1 ≤ qa.2.value ∧ qa.2.value ≤ 5)
    (dim : String) (hne : dimContributions answers dim ≠ []) :
    alookup (calculate_question_scores answers) dim
      = some ((((dimContributions answers dim).sum : ℚ)
            / ((dimContributions answers dim).length : ℚ) - 1) / 4 * 100) := by
  have h0 : alookup (answers.foldl accumStep []) dim
      = some ((dimContributions answers dim).sum,
              (dimContributions answers dim).length) := by
    rw [accum_none answers [] dim rfl, if_neg hne]
  have hL : (dimContributions answers dim).length ≠ 0 := by
    simpa [List.length_eq_zero] using hne
  unfold calculate_question_scores
  rw [alookup_map (fun e => normalize_dimension e.2.1 e.2.2) _ h0]
  simp [normalize_dimension, hL]

/-- Witness for C3: a single non-reversed answer of value 3 on dimension
`thinking` scores exactly 50. -/
theorem calculate_question_scores_mean_witness :
    alookup (calculate_question_scores [("q1", ⟨3, "thinking", false⟩)]) "thinking"
      = some 50 := by
  have h := calculate_question_scores_mean [("q1", ⟨3, "thinking", false⟩)]
    (by decide) "thinking" (by decide)
  rw [h]
  norm_num [dimContributions, adjustedValue]

/-- Claim C7: a dimension with zero contributing answers normalises to the
defined neutral default 50 instead of dividing by zero. -/
theorem normalize_dimension_zero_count (total : ℤ) :
    normalize_dimension total 0 = 50 := rfl

/-- Claim C8: reverse-coding round-trip: a single answer of value `v` in 1..5
with reverse=true produces exactly the scores of a single answer of value
`6 - v` with reverse=false. -/
theorem reverse_coding_roundtrip (q dim : String) (v : ℤ)
    (h : 1 ≤ v ∧ v ≤ 5) :
    calculate_question_scores [(q, ⟨v, dim, true⟩)]
      = calculate_question_scores [(q, ⟨6 - v, dim, false⟩)] := rfl

/-- Witness for C8: value 2 reversed scores exactly as value 4 unreversed. -/
theorem reverse_coding_roundtrip_witness :
    (1 ≤ (2 : ℤ) ∧ (2 : ℤ) ≤ 5)
      ∧ calculate_question_scores [("q", ⟨2, "d", true⟩)]
          = calculate_question_scores [("q", ⟨4, "d", false⟩)] :=
  ⟨by decide, reverse_coding_roundtrip "q" "d" 2 (by decide)⟩

/-!  The pairing and accumulation behaviour of `calculate_scenario_scores`.  -/

theorem zip_take_take {α β : Type} :
    ∀ (rs : List α) (ws : List β),
      rs.zip ws = (rs.take ws.length).zip (ws.take rs.length)
  | [], _ => by simp
  | _ :: _, [] => by simp
  | r :: rs, w :: ws => by
    simpa [List.zip_cons_cons] using zip_take_take rs ws

/-- Claim C10: scenario responses and weights are paired strictly by position:
the result only sees the index-aligned pairs up to the shorter list (trailing
entries of the longer list are silently dropped), and a `None` response
contributes nothing. -/
theorem calculate_scenario_scores_pairing (rs : List (Option ℚ))
    (ws : List ScenarioWeight) (w : ScenarioWeight) :
    calculate_scenario_scores rs ws
        = calculate_scenario_scores (rs.take ws.length) (ws.take rs.length)
      ∧ calculate_scenario_scores (none :: rs) (w :: ws)
          = calculate_scenario_scores rs ws := by
  constructor
  · unfold calculate_scenario_scores
    rw [← zip_take_take]
  · unfold calculate_scenario_scores
    rw [List.zip_cons_cons, List.foldl_cons]
    rfl

theorem scen_fold_getD (pairs : List (Option ℚ × ScenarioWeight)) :
    ∀ (acc : List (String × ℚ)) (dim : String),
      (alookup (pairs.foldl scenStep acc) dim).getD 0
        = (alookup acc dim).getD 0 + scenarioDelta pairs dim := by
  induction pairs with
  | nil =>
    intro acc dim
    simp [scenarioDelta]
  | cons p rest ih =>
    intro acc dim
    rw [List.foldl_cons, ih]
    have hdelta : scenarioDelta (p :: rest) dim
        = (match p.1 with
           | none => 0
           | some r => if p.2.dimension = dim then (r - 3) * p.2.weight else 0)
          + scenarioDelta rest dim := by
      simp [scenarioDelta]
    rw [hdelta]
    cases hp : p.1 with
    | none => simp [scenStep, hp]
    | some r =>
      by_cases hdim : p.2.dimension = dim
      · subst hdim
        simp [scenStep, hp, dadd_lookup_getD]
        ring
      · simp [scenStep, hp, hdim, dadd_lookup_other _ hdim]

theorem merge_scores_lookup (base adj : List (String × ℚ)) {dim : String}
    {b : ℚ} (h : alookup base dim = some b) :
    alookup (merge_scores base adj) dim
      = some (max 0 (min 100 (b + (alookup adj dim).getD 0))) := by
  unfold merge_scores
  exact alookup_map (fun e => max 0 (min 100 (e.2 + (alookup adj e.1).getD 0))) _ h

/-- Counterexample to claim C2 as stated: with base scores
`{a: 50, b: 50, c: 80}` and one scenario response 5 weighted 30 on dimension
`a`, the engine produces `{a: 100, b: 50, c: 80}`, and no weights
`wq + ws = 1` together with rescaled scenario values (`s60` for the raw
scenario score 60 of `a`, `s0` for the raw score 0 shared by `b` and `c`)
reproduce these outputs as `base[d]*wq + scenarioNorm[d]*ws`. -/
theorem merge_scores_no_weighted_blend :
    calculate_scenario_scores [some 5] [⟨"a", 30⟩] = [("a", 60)]
    ∧ merge_scores [("a", 50), ("b", 50), ("c", 80)]
          (calculate_scenario_scores [some 5] [⟨"a", 30⟩])
        = [("a", 100), ("b", 50), ("c", 80)]
    ∧ ¬ ∃ wq ws s60 s0 : ℚ, wq + ws = 1
        ∧ 100 = 50 * wq + s60 * ws
        ∧ 50 = 50 * wq + s0 * ws
        ∧ 80 = 80 * wq + s0 * ws := by
  refine ⟨?_, ?_, ?_⟩
  · norm_num [calculate_scenario_scores, scenStep, dadd, List.zip]
  · have hab : ("a" : String) ≠ "b" := by decide
    have hac : ("a" : String) ≠ "c" := by decide
    norm_num [merge_scores, calculate_scenario_scores, scenStep, dadd,
      List.zip, alookup, hab, hac]
  · rintro ⟨wq, ws, s60, s0, h1, h2, h3, h4⟩
    have hwq : wq = 1 := by linarith
    have hws : ws = 0 := by linarith
    rw [hwq, hws] at h2
    norm_num at h2

/-- Claim C2 (amended): the scenario-adjustment stage performs no rescaling
and no weighted blend; the final score of a dimension is the base score plus
the raw sum of `(resp - 3) * weight` over the index-aligned scenario pairs
naming that dimension, clamped to [0, 100]. -/
theorem merge_scenario_delta (rs : List (Option ℚ)) (ws : List ScenarioWeight)
    (base : List (String × ℚ)) (dim : String) (b : ℚ)
    (h : alookup base dim = some b) :
    alookup (merge_scores base (calculate_scenario_scores rs ws)) dim
      = some (max 0 (min 100 (b + scenarioDelta (rs.zip ws) dim))) := by
  rw [merge_scores_lookup _ _ h]
  unfold calculate_scenario_scores
  rw [scen_fold_getD]
  simp [alookup]

/-- Witness for the amended C2: base 50 on `a` plus raw delta 60 clamps to
exactly 100. -/
theorem merge_scenario_delta_witness :
    alookup (merge_scores [("a", 50)]
        (calculate_scenario_scores [some 5] [⟨"a", 30⟩])) "a"
      = some 100 := by
  have h := merge_scenario_delta [some 5] [⟨"a", 30⟩] [("a", 50)] "a" 50
    (by simp [alookup])
  rw [h]
  norm_num [scenarioDelta, List.zip]

/-!  The archetype matcher: characterisation of the distances list.  -/

theorem validFold_append (scores : List (String × ℚ))
    (archetypes : List (String × ArchetypeData)) :
    ∀ acc : List (String × ℚ),
      archetypes.foldl (validStep scores) acc
        = acc ++ archetypes.filterMap (fun p =>
            match p.2.signature with
            | none => none
            | some sig =>
              if scores.any (fun q => (alookup sig q.1).isNone) then none
              else some (p.1, distSq scores sig)) := by
  induction archetypes with
  | nil =>
    intro acc
    simp
  | cons p rest ih =>
    intro acc
    rw [List.foldl_cons, ih, List.filterMap_cons]
    cases hps : p.2.signature with
    | none => simp [validStep, hps]
    | some sig =>
      by_cases hc : scores.any (fun q => (alookup sig q.1).isNone) = true
      · simp [validStep, hps, hc]
      · simp only [Bool.not_eq_true] at hc
        simp [validStep, hps, hc]

theorem validEntries_eq (scores : List (String × ℚ))
    (archetypes : List (String × ArchetypeData)) :
    validEntries scores archetypes
      = archetypes.filterMap (fun p =>
          match p.2.signature with
          | none => none
          | some sig =>
            if scores.any (fun q => (alookup sig q.1).isNone) then none
            else some (p.1, distSq scores sig)) := by
  simpa using validFold_append scores archetypes []

theorem distSq_fold_congr {sig1 sig2 : List (String × ℚ)} :
    ∀ (scores : List (String × ℚ)) (init : ℚ),
      (∀ q ∈ scores, alookup sig1 q.1 = alookup sig2 q.1) →
      scores.foldl (fun s e => s + (e.2 - (alookup sig1 e.1).getD 0) ^ 2) init
        = scores.foldl (fun s e => s + (e.2 - (alookup sig2 e.1).getD 0) ^ 2) init := by
  intro scores
  induction scores with
  | nil =>
    intro init _
    rfl
  | cons q rest ih =>
    intro init h
    rw [List.foldl_cons, List.foldl_cons, h q (List.mem_cons_self _ _)]
    exact ih _ (fun r hr => h r (List.mem_cons_of_mem _ hr))

theorem distSq_congr {sig1 sig2 : List (String × ℚ)}
    (scores : List (String × ℚ))
    (h : ∀ q ∈ scores, alookup sig1 q.1 = alookup sig2 q.1) :
    distSq scores sig1 = distSq scores sig2 :=
  distSq_fold_congr scores 0 h

/-- Counterexample to claim C1 as stated: with scores on dimensions `a` and
`b`, a signature that is a mapping covering only `a` does NOT participate in
the distance comparison: it is excluded, leaving no valid archetype, so the
engine returns the Unknown sentinel instead of matching `X`. -/
theorem partial_signature_excluded :
    validEntries [("a", 0), ("b", 0)]
        [("X", ⟨some [("a", 0)], "", [], []⟩)] = []
    ∧ determine_archetypes [("a", 0), ("b", 0)]
          [("X", ⟨some [("a", 0)], "", [], []⟩)]
        = (("Unknown", ResultData.fallback sentinelDescription [] []),
           ("None", ResultData.emptyDict)) :=
  ⟨rfl, rfl⟩

/-- Claim C1 (amended): the tolerance of the matcher runs one way only.
Dimensions present in a signature but absent from the score vector are
ignored (appending extra entries to a covering signature leaves its distance
unchanged), but a signature missing any scored dimension is excluded from
the comparison entirely rather than compared on the shared dimensions. -/
theorem signature_dimension_policy (scores : List (String × ℚ))
    (archetypes : List (String × ArchetypeData)) (name : String)
    (data : ArchetypeData) (sig : List (String × ℚ))
    (hmem : (name, data) ∈ archetypes) (hsig : data.signature = some sig) :
    ((∀ q ∈ scores, (alookup sig q.1).isSome) →
        (name, distSq scores sig) ∈ validEntries scores archetypes
        ∧ ∀ extra, distSq scores (sig ++ extra) = distSq scores sig)
    ∧ ((∃ q ∈ scores, alookup sig q.1 = none) →
        (archetypes.map Prod.fst).Nodup →
        ∀ d, (name, d) ∉ validEntries scores archetypes) := by
  constructor
  · intro hcov
    have hany : (scores.any fun q => (alookup sig q.1).isNone) = false := by
      rw [List.any_eq_false]
      intro q hq
      simp only [Bool.not_eq_true, Option.isNone_eq_false_iff]
      exact hcov q hq
    constructor
    · rw [validEntries_eq]
      refine List.mem_filterMap.mpr ⟨(name, data), hmem, ?_⟩
      simp [hsig, hany]
    · intro extra
      refine distSq_congr scores (fun q hq => ?_)
      exact alookup_append_of_isSome extra (hcov q hq)
  · rintro ⟨q, hq, hqnone⟩ hnodup d hd
    rw [validEntries_eq] at hd
    obtain ⟨p, hp, hgp⟩ := List.mem_filterMap.mp hd
    cases hps : p.2.signature with
    | none => simp [hps] at hgp
    | some sig2 =>
      rw [hps] at hgp
      by_cases hc : (scores.any fun r => (alookup sig2 r.1).isNone) = true
      · simp [hc] at hgp
      · simp only [Bool.not_eq_true] at hc
        simp only [hc, Bool.false_eq_true, if_false, Option.some.injEq,
          Prod.mk.injEq] at hgp
        have hpeq : p = (name, data) :=
          List.inj_on_of_nodup_map hnodup hp hmem hgp.1
        rw [hpeq] at hps
        rw [hsig] at hps
        obtain rfl := Option.some_injective _ hps.symm
        rw [List.any_eq_false] at hc
        have := hc q hq
        simp [hqnone] at this

/-- Witness for the amended C1: with one scored dimension `a`, archetype `X`
whose signature covers `a` plus an extra dimension `z` participates, while
archetype `Y` whose signature misses `a` is excluded. -/
theorem signature_dimension_policy_witness :
    ("X", distSq [("a", 0)] [("a", 0), ("z", 7)])
        ∈ validEntries [("a", 0)]
            [("X", ⟨some [("a", 0), ("z", 7)], "", [], []⟩),
             ("Y", ⟨some [("w", 1)], "", [], []⟩)]
    ∧ distSq [("a", 0)] ([("a", 0)] ++ [("z", 7)]) = distSq [("a", 0)] [("a", 0)]
    ∧ ("Y", 0) ∉ validEntries [("a", 0)]
            [("X", ⟨some [("a", 0), ("z", 7)], "", [], []⟩),
             ("Y", ⟨some [("w", 1)], "", [], []⟩)] := by
  refine ⟨?_, ?_, ?_⟩
  · exact ((signature_dimension_policy _ _ "X"
      ⟨some [("a", 0), ("z", 7)], "", [], []⟩ [("a", 0), ("z", 7)]
      (by simp) rfl).1 (by decide)).1
  · exact ((signature_dimension_policy
      [("a", 0)] [("X", ⟨some [("a", 0)], "", [], []⟩)] "X"
      ⟨some [("a", 0)], "", [], []⟩ [("a", 0)] (by simp) rfl).1
      (by decide)).2 [("z", 7)]
  · exact (signature_dimension_policy _ _ "Y"
      ⟨some [("w", 1)], "", [], []⟩ [("w", 1)]
      (by simp) rfl).2 ⟨("a", 0), by simp, by decide⟩ (by decide) 0

/-- Claim C4: when no archetype signature passes validation (none is a
mapping covering every scored dimension), `determine_archetypes` returns the
defined Unknown sentinel with its generic description/strengths/risks
payload and a None shadow; being a total function, it raises nothing. -/
theorem determine_archetypes_sentinel (scores : List (String × ℚ))
    (archetypes : List (String × ArchetypeData))
    (h : ∀ p ∈ archetypes, ∀ sig, p.2.signature = some sig →
        ∃ q ∈ scores, alookup sig q.1 = none) :
    determine_archetypes scores archetypes
      = (("Unknown", ResultData.fallback sentinelDescription [] []),
         ("None", ResultData.emptyDict)) := by
  have hv : validEntries scores archetypes = [] := by
    rw [validEntries_eq, List.filterMap_eq_nil_iff]
    intro p hp
    cases hps : p.2.signature with
    | none => simp [hps]
    | some sig =>
      obtain ⟨q, hq, hqq⟩ := h p hp sig hps
      have hany : (scores.any fun r => (alookup sig r.1).isNone) = true := by
        rw [List.any_eq_true]
        exact ⟨q, hq, by simp [hqq]⟩
      simp [hps, hany]
  unfold determine_archetypes
  rw [hv]
  rfl

/-- Witness for C4: one archetype with a non-mapping signature and one whose
signature misses the scored dimension `a` leave zero valid archetypes. -/
theorem determine_archetypes_sentinel_witness :
    determine_archetypes [("a", 0)]
        [("X", ⟨some [("b", 0)], "", [], []⟩), ("Z", ⟨none, "", [], []⟩)]
      = (("Unknown", ResultData.fallback sentinelDescription [] []),
         ("None", ResultData.emptyDict)) := by
  refine determine_archetypes_sentinel _ _ ?_
  intro p hp sig hsig
  simp only [List.mem_cons, List.mem_singleton] at hp
  rcases hp with rfl | rfl | h
  · simp only at hsig
    obtain rfl := Option.some_injective _ hsig
    exact ⟨("a", 0), by simp, by decide⟩
  · simp at hsig
  · simp at h

/-!  The stable sort and the first-minimum selection.  -/

theorem sortDist_head (l : List (String × ℚ)) :
    (sortDist l).head? = specFirstMin l := by
  induction l with
  | nil => rfl
  | cons x xs ih =>
    rw [sortDist]
    cases h : sortDist xs with
    | nil =>
      have hx : specFirstMin xs = none := by rw [← ih, h]; rfl
      simp [insertDist, specFirstMin, hx]
    | cons y ys =>
      have hx : specFirstMin xs = some y := by rw [← ih, h]; rfl
      simp only [specFirstMin, hx]
      by_cases hc : x.2 ≤ y.2
      · simp [insertDist, hc]
      · simp [insertDist, hc]

theorem specFirstMin_eq_none {l : List (String × ℚ)}
    (h : specFirstMin l = none) : l = [] := by
  cases l with
  | nil => rfl
  | cons x xs =>
    exfalso
    rw [specFirstMin] at h
    cases h2 : specFirstMin xs with
    | none => rw [h2] at h; simp at h
    | some m => rw [h2] at h; by_cases hc : x.2 ≤ m.2 <;> simp [hc] at h

theorem specFirstMin_split (l : List (String × ℚ)) :
    ∀ m, specFirstMin l = some m →
      (∀ q ∈ l, m.2 ≤ q.2)
      ∧ ∃ l₁ l₂, l = l₁ ++ m :: l₂ ∧ ∀ q ∈ l₁, m.2 < q.2 := by
  induction l with
  | nil =>
    intro m h
    simp [specFirstMin] at h
  | cons x xs ih =>
    intro m h
    rw [specFirstMin] at h
    cases h2 : specFirstMin xs with
    | none =>
      rw [h2] at h
      simp only at h
      obtain rfl := Option.some_injective _ h
      obtain rfl := specFirstMin_eq_none h2
      exact ⟨by simp, [], [], rfl, by simp⟩
    | some n =>
      rw [h2] at h
      simp only at h
      obtain ⟨hmin, l₁, l₂, heq, hgt⟩ := ih n h2
      by_cases hc : x.2 ≤ n.2
      · rw [if_pos hc] at h
        obtain rfl := Option.some_injective _ h
        refine ⟨?_, [], xs, rfl, by simp⟩
        intro q hq
        rcases List.mem_cons.mp hq with rfl | hq2
        · exact le_refl _
        · exact le_trans hc (hmin q hq2)
      · rw [if_neg hc] at h
        obtain rfl := Option.some_injective _ h
        have hlt : n.2 < x.2 := lt_of_not_le hc
        refine ⟨?_, x :: l₁, l₂, by simp [heq], ?_⟩
        · intro q hq
          rcases List.mem_cons.mp hq with rfl | hq2
          · exact le_of_lt hlt
          · exact hmin q hq2
        · intro q hq
          rcases List.mem_cons.mp hq with rfl | hq2
          · exact hlt
          · exact hgt q hq2

theorem sortDist_all_eq {c : ℚ} :
    ∀ {l : List (String × ℚ)}, (∀ q ∈ l, q.2 = c) → sortDist l = l := by
  intro l
  induction l with
  | nil => intro _; rfl
  | cons x xs ih =>
    intro h
    rw [sortDist, ih (fun q hq => h q (List.mem_cons_of_mem _ hq))]
    cases xs with
    | nil => rfl
    | cons y ys =>
      have hx : x.2 = c := h x (List.mem_cons_self _ _)
      have hy : y.2 = c := h y (by simp)
      simp [insertDist, hx, hy]

/-- Claim C5: the primary archetype is the valid archetype of minimum
distance, ties broken in favour of the first-encountered entry of the
distances list (which follows the archetype collection's insertion order);
as a pure function of its inputs the selection is deterministic. -/
theorem determine_archetypes_first_min (scores : List (String × ℚ))
    (archetypes : List (String × ArchetypeData)) :
    ((determine_archetypes scores archetypes).1.1
        = ((specFirstMin (validEntries scores archetypes)).map Prod.fst).getD
            "Unknown")
    ∧ ∀ m, specFirstMin (validEntries scores archetypes) = some m →
        (∀ q ∈ validEntries scores archetypes, m.2 ≤ q.2)
        ∧ ∃ l₁ l₂, validEntries scores archetypes = l₁ ++ m :: l₂
            ∧ ∀ q ∈ l₁, m.2 < q.2 := by
  constructor
  · unfold determine_archetypes
    cases hs : sortDist (validEntries scores archetypes) with
    | nil =>
      have hn : specFirstMin (validEntries scores archetypes) = none := by
        rw [← sortDist_head, hs]; rfl
      simp [hn]
    | cons p rest =>
      have hp : specFirstMin (validEntries scores archetypes) = some p := by
        rw [← sortDist_head, hs]; rfl
      cases rest <;> simp [hp]
  · intro m hm
    exact specFirstMin_split _ m hm

/-- Witness for C5: with empty scores both archetypes are at distance 0 and
the exact tie goes to the first-encountered archetype `X`. -/
theorem determine_archetypes_first_min_witness :
    (determine_archetypes []
        [("X", ⟨some [], "", [], []⟩), ("Y", ⟨some [], "", [], []⟩)]).1.1 = "X"
    ∧ ∃ l₁ l₂, validEntries []
          [("X", ⟨some [], "", [], []⟩), ("Y", ⟨some [], "", [], []⟩)]
        = l₁ ++ ("X", (0 : ℚ)) :: l₂ := by
  constructor
  · rw [(determine_archetypes_first_min []
      [("X", ⟨some [], "", [], []⟩), ("Y", ⟨some [], "", [], []⟩)]).1]
    rfl
  · obtain ⟨-, l₁, l₂, heq, -⟩ := (determine_archetypes_first_min []
      [("X", ⟨some [], "", [], []⟩), ("Y", ⟨some [], "", [], []⟩)]).2
      ("X", 0) (by decide)
    exact ⟨l₁, l₂, heq⟩

/-!  The matcher on an empty score vector.  -/

theorem validEntries_nil_scores (archetypes : List (String × ArchetypeData)) :
    validEntries [] archetypes
      = archetypes.filterMap (fun p => p.2.signature.map (fun _ => (p.1, (0 : ℚ)))) := by
  rw [validEntries_eq]
  induction archetypes with
  | nil => rfl
  | cons p rest ih =>
    rw [List.filterMap_cons, List.filterMap_cons, ih]
    cases hps : p.2.signature with
    | none => simp [hps]
    | some sig => simp [hps, distSq]

theorem filterMap_sig_head (archetypes : List (String × ArchetypeData)) :
    (archetypes.filterMap (fun p => p.2.signature.map (fun _ => (p.1, (0 : ℚ))))).head?
      = (archetypes.find? (fun p => p.2.signature.isSome)).map
          (fun p => (p.1, (0 : ℚ))) := by
  induction archetypes with
  | nil => rfl
  | cons p rest ih =>
    rw [List.filterMap_cons]
    cases hps : p.2.signature with
    | none =>
      have hf : List.find? (fun p => p.2.signature.isSome) (p :: rest)
          = List.find? (fun p => p.2.signature.isSome) rest :=
        List.find?_cons_of_neg _ (by simp [hps])
      simp [hps, hf, ih]
    | some sig =>
      have hf : List.find? (fun p => p.2.signature.isSome) (p :: rest) = some p :=
        List.find?_cons_of_pos _ (by simp [hps])
      simp [hps, hf]

theorem validEntries_nil_zero (archetypes : List (String × ArchetypeData)) :
    ∀ q ∈ validEntries [] archetypes, q.2 = 0 := by
  rw [validEntries_nil_scores]
  intro q hq
  obtain ⟨p, hp, hgp⟩ := List.mem_filterMap.mp hq
  cases hps : p.2.signature with
  | none => rw [hps] at hgp; simp at hgp
  | some sig =>
    rw [hps] at hgp
    simp only [Option.map_some', Option.some.injEq] at hgp
    rw [← hgp]

/-- Claim C9: with an empty answer map the question scores are the empty
vector; on the empty vector every archetype whose signature is a mapping is
a valid entry with distance 0 (an empty sum), so the pipeline returns the
first such archetype in insertion order as primary, raising nothing. -/
theorem empty_answers_pipeline :
    calculate_question_scores [] = []
    ∧ (∀ archetypes : List (String × ArchetypeData),
        validEntries [] archetypes
          = archetypes.filterMap (fun p => p.2.signature.map (fun _ => (p.1, (0 : ℚ)))))
    ∧ ∀ (archetypes : List (String × ArchetypeData)) (name : String),
        firstMappingArchetype archetypes = some name →
        (determine_archetypes [] archetypes).1.1 = name
        ∧ (compute_idix [] none none (some archetypes)).2.1.1 = name := by
  refine ⟨rfl, validEntries_nil_scores, ?_⟩
  intro archetypes name hfirst
  cases archetypes with
  | nil => simp [firstMappingArchetype] at hfirst
  | cons a rest =>
    obtain ⟨pf, hpf, hpfname⟩ : ∃ pf,
        (a :: rest).find? (fun p => p.2.signature.isSome) = some pf
          ∧ pf.1 = name := by
      unfold firstMappingArchetype at hfirst
      cases hf : (a :: rest).find? (fun p => p.2.signature.isSome) with
      | none => rw [hf] at hfirst; simp at hfirst
      | some pf =>
        rw [hf] at hfirst
        simp only [Option.map_some', Option.some.injEq] at hfirst
        exact ⟨pf, rfl, hfirst⟩
    have hhead : (validEntries [] (a :: rest)).head? = some (name, 0) := by
      rw [validEntries_nil_scores, filterMap_sig_head, hpf]
      simp [hpfname]
    have hsort : sortDist (validEntries [] (a :: rest)) = validEntries [] (a :: rest) :=
      sortDist_all_eq (validEntries_nil_zero (a :: rest))
    have hprimary : (determine_archetypes [] (a :: rest)).1.1 = name := by
      unfold determine_archetypes
      rw [hsort]
      cases hv : validEntries [] (a :: rest) with
      | nil => rw [hv] at hhead; simp at hhead
      | cons z zs =>
        rw [hv] at hhead
        simp only [List.head?_cons, Option.some.injEq] at hhead
        cases zs <;> simp [hhead]
    exact ⟨hprimary, hprimary⟩

/-- Witness for C9: skipping the non-mapping signature of `N`, the first
archetype with a mapping signature, `X`, wins on the empty answer map. -/
theorem empty_answers_pipeline_witness :
    firstMappingArchetype
        [("N", ⟨none, "", [], []⟩), ("X", ⟨some [("a", 5)], "", [], []⟩)]
      = some "X"
    ∧ (determine_archetypes []
        [("N", ⟨none, "", [], []⟩), ("X", ⟨some [("a", 5)], "", [], []⟩)]).1.1 = "X"
    ∧ (compute_idix [] none none (some
        [("N", ⟨none, "", [], []⟩), ("X", ⟨some [("a", 5)], "", [], []⟩)])).2.1.1
      = "X" := by
  have h := empty_answers_pipeline.2.2
    [("N", ⟨none, "", [], []⟩), ("X", ⟨some [("a", 5)], "", [], []⟩)] "X" rfl
  exact ⟨rfl, h.1, h.2⟩

/-- Claim C6: the scenario-adjustment stage is the identity when there is no
scenario signal: for base scores within [0, 100], merging with no scenario
data (or with all-zero adjustments) returns the base vector unchanged, and
the pipeline run without scenario input returns the question scores as the
final scores. -/
theorem scenario_identity (base : List (String × ℚ))
    (hrange : ∀ p ∈ base, 0 ≤ p.2 ∧ p.2 ≤ 100) :
    merge_scores base [] = base
    ∧ (∀ adj : List (String × ℚ), (∀ q ∈ adj, q.2 = 0) →
        merge_scores base adj = base)
    ∧ ∀ (answers : List (String × Answer))
        (archetypes : Option (List (String × ArchetypeData))),
        calculate_question_scores answers = base →
        (compute_idix answers none none archetypes).1 = base := by
  have hmain : ∀ adj : List (String × ℚ), (∀ q ∈ adj, q.2 = 0) →
      merge_scores base adj = base := by
    intro adj hadj
    unfold merge_scores
    have hpt : ∀ e ∈ base,
        (e.1, max 0 (min 100 (e.2 + (alookup adj e.1).getD 0))) = e := by
      intro e he
      have hz : (alookup adj e.1).getD 0 = 0 := by
        cases hl : alookup adj e.1 with
        | none => rfl
        | some v => simpa using hadj _ (alookup_mem hl)
      obtain ⟨h0, h100⟩ := hrange e he
      rw [hz, add_zero, min_eq_right h100, max_eq_right h0]
    rw [List.map_congr_left hpt]
    simp
  refine ⟨hmain [] (by simp), hmain, ?_⟩
  intro answers archetypes hq
  have hfinal : merge_scores (calculate_question_scores answers) [] = base := by
    rw [hq]
    exact hmain [] (by simp)
  cases archetypes with
  | none => exact hfinal
  | some l =>
    cases l with
    | nil => exact hfinal
    | cons a rest => exact hfinal

/-- Witness for C6: a base vector with one in-range score is returned
unchanged both with empty and with all-zero adjustments. -/
theorem scenario_identity_witness :
    merge_scores [("a", (50 : ℚ))] [] = [("a", (50 : ℚ))]
    ∧ merge_scores [("a", (50 : ℚ))] [("b", 0)] = [("a", (50 : ℚ))] := by
  have h := scenario_identity [("a", (50 : ℚ))] (by decide)
  exact ⟨h.1, h.2.1 [("b", 0)] (by decide)⟩
